import Mathlib

/-!
# Shallow embedding of `invest_strategy_simulator.py`

This file embeds the Monte Carlo simulation core of the investment
strategy simulator (the strategy loop, the per-trial simulation, and the
percentile aggregation) and proves properties about it.

Conventions of the embedding:

* Money amounts and monthly return rates are rationals (`ℚ`).  The source
  computes with Python/NumPy numbers; the claims under study are exact
  algebraic statements about the recurrences, which the rational embedding
  captures.
* The source derives the monthly parameters once per strategy run
  (`monthly_return = expected_return / 100 / 12`,
  `monthly_std = volatility / 100 / sqrt 12`, and likewise for the bear
  regime).  The `sqrt 12` scaling leaves `ℚ`, so the configuration below
  carries the derived monthly mean and standard deviation directly; every
  claim is either universally quantified over these fields or sets the
  standard deviations to zero (where `vol / 100 / sqrt 12 = 0 ↔ vol = 0`),
  so nothing depends on the numeric value of `sqrt 12`.
* NumPy's seeded generator is modelled abstractly: seeding with 42 yields
  a stream `z : ℕ → ℚ` of standard-normal draws, and the generator state
  is the pair of the current stream and the position of the next draw.
  `np.random.normal(loc, scale, n)` returns
  `loc + scale * z pos, …, loc + scale * z (pos + n - 1)` and advances the
  position by `n`.  This captures exactly the state discipline (seeding,
  consumption order) that the reproducibility claims are about.
-/

namespace InvestSim

/-- The four strategy strings of the source (`strategies` list, lines 56-61). -/
inductive Strategy where
  | continueHoldingAndContributing
  | takeProfitAndKeepContributing
  | takeProfitKeepPrincipalOnly
  | stopContributingHoldExisting
deriving DecidableEq, Repr

open Strategy

/-- Line 92: membership of `strategy` in
`["Take Profit, Keep Principal Only", "Take Profit and Keep Contributing"]`. -/
def isTakeProfit : Strategy → Bool
  | takeProfitKeepPrincipalOnly => true
  | takeProfitAndKeepContributing => true
  | _ => false

/-- Line 101: membership of `strategy` in
`["Continue Holding and Contributing", "Take Profit and Keep Contributing"]`. -/
def isContributing : Strategy → Bool
  | continueHoldingAndContributing => true
  | takeProfitAndKeepContributing => true
  | _ => false

/-- The sidebar inputs of the source, with the two regime parameters already
reduced to monthly mean/standard deviation (lines 43-53 and 73-79; see the
file comment for the `sqrt 12` scaling). -/
structure Config where
  principal : ℚ
  current_return_pct : ℚ
  monthly_dca : ℚ
  months : ℕ
  bear_months : ℕ
  monthly_return : ℚ
  monthly_std : ℚ
  bear_monthly_return : ℚ
  bear_monthly_std : ℚ
  simulations : ℕ
deriving Repr

namespace Config

/-- Line 71: `initial_value = principal * (1 + current_return_pct / 100)`. -/
def initial_value (cfg : Config) : ℚ :=
  cfg.principal * (1 + cfg.current_return_pct / 100)

/-- Line 72: `cost_basis = principal`. -/
def cost_basis (cfg : Config) : ℚ := cfg.principal

/-- Line 80: `normal_months = months - bear_months` (truncated subtraction on
`ℕ`; the source value is an `int` and agrees whenever
`bear_months ≤ months`). -/
def normal_months (cfg : Config) : ℕ := cfg.months - cfg.bear_months

/-- Number of standard-normal draws one trial consumes:
`bear_months` for `bear_returns` plus `normal_months` for `normal_returns`
(lines 96-97). -/
def drawsPerTrial (cfg : Config) : ℕ := cfg.bear_months + cfg.normal_months

end Config

/-- One month of the inner loop (lines 100-105): given the pair
`(value, total_contribution)` and the month's return `r`, a contributing
strategy first adds the monthly contribution and an always-applied growth
factor `1 + r` multiplies the (possibly topped-up) value. -/
def monthStep (s : Strategy) (dca : ℚ) (st : ℚ × ℚ) (r : ℚ) : ℚ × ℚ :=
  if isContributing s then ((st.1 + dca) * (1 + r), st.2 + dca)
  else (st.1 * (1 + r), st.2)

/-- The state `(value, total_contribution)` the monthly loop starts from:
lines 87-88 set `(initial_value, principal)` and lines 92-94 overwrite both
with `cost_basis` for the take-profit strategies. -/
def startState (cfg : Config) (s : Strategy) : ℚ × ℚ :=
  if isTakeProfit s then (cfg.cost_basis, cfg.cost_basis)
  else (cfg.initial_value, cfg.principal)

/-- The result of one trial of the inner loop (lines 86-110). -/
structure Trial where
  returns : List ℚ
  time_series : List ℚ
  contrib_series : List ℚ
  final_value : ℚ
  final_contribution : ℚ
deriving Repr

/-- One trial (lines 86-110).  Note the faithful quirk: `time_series` and
`contrib_series` are seeded with `initial_value` and `principal`
(lines 89-90) BEFORE the take-profit reset of lines 92-94, while the monthly
evolution starts from `startState`. -/
def runTrial (cfg : Config) (s : Strategy) (rets : List ℚ) : Trial :=
  let states := rets.scanl (monthStep s cfg.monthly_dca) (startState cfg s)
  let tail := states.drop 1
  { returns := rets
    time_series := cfg.initial_value :: tail.map Prod.fst
    contrib_series := cfg.principal :: tail.map Prod.snd
    final_value := (rets.foldl (monthStep s cfg.monthly_dca) (startState cfg s)).1
    final_contribution := (rets.foldl (monthStep s cfg.monthly_dca) (startState cfg s)).2 }

/-- `np.random.normal(mu, sigma, n)` drawn from the abstract standard-normal
stream `z` starting at position `pos` (see the file comment). -/
def drawNormal (z : ℕ → ℚ) (pos : ℕ) (mu sigma : ℚ) (n : ℕ) : List ℚ :=
  (List.range n).map fun j => mu + sigma * z (pos + j)

/-- Lines 96-98: the concatenated bear-then-normal return sequence consumed by
one trial whose first draw is at stream position `pos`. -/
def trialReturns (cfg : Config) (z : ℕ → ℚ) (pos : ℕ) : List ℚ :=
  drawNormal z pos cfg.bear_monthly_return cfg.bear_monthly_std cfg.bear_months
    ++ drawNormal z (pos + cfg.bear_months) cfg.monthly_return cfg.monthly_std
        cfg.normal_months

/-- The trial loop (lines 86-113): run `count` trials, threading the stream
position; each trial consumes `drawsPerTrial` draws. -/
def runTrialsFrom (cfg : Config) (s : Strategy) (z : ℕ → ℚ) :
    ℕ → ℕ → List Trial
  | 0, _ => []
  | k + 1, pos =>
      runTrial cfg s (trialReturns cfg z pos)
        :: runTrialsFrom cfg s z k (pos + cfg.drawsPerTrial)

/-- State of NumPy's global generator: the stream obtained from the last
seeding, and the position of the next draw. -/
structure RngState where
  stream : ℕ → ℚ
  pos : ℕ

/-- Line 81, `np.random.seed(42)`: replaces the global generator state by the
stream determined by seed 42, positioned at its first draw.  The incoming
state is discarded. -/
def seed42 (z42 : ℕ → ℚ) (_st : RngState) : RngState := ⟨z42, 0⟩

/-- One iteration of the strategy loop (lines 70-120) acting on the global
generator state: seed with 42, then run `simulations` trials. -/
def runStrategyFrom (cfg : Config) (s : Strategy) (z42 : ℕ → ℚ)
    (st : RngState) : List Trial :=
  let st' := seed42 z42 st
  runTrialsFrom cfg s st'.stream cfg.simulations st'.pos

/-- The trials produced for one strategy of the comparison (any incoming
generator state gives this, by `seed42`). -/
def runStrategy (cfg : Config) (s : Strategy) (z42 : ℕ → ℚ) : List Trial :=
  runTrialsFrom cfg s z42 cfg.simulations 0

/-- Line 110: `final_values`, one scalar per trial in trial order. -/
def finalValues (cfg : Config) (s : Strategy) (z42 : ℕ → ℚ) : List ℚ :=
  (runStrategy cfg s z42).map Trial.final_value

/-- Lines 111-113: the first 20 trials' time series kept for display. -/
def timeSeriesExamples (cfg : Config) (s : Strategy) (z42 : ℕ → ℚ) :
    List (List ℚ) :=
  ((runStrategy cfg s z42).map Trial.time_series).take 20

/-- The integer part of a virtual percentile index (non-negative in every
use below). -/
def interpIdx (h : ℚ) : ℕ := ⌊h⌋.toNat

/-- Linear interpolation into a list at fractional index `h`, exactly as
NumPy's default percentile method: with `i = ⌊h⌋`, the value is
`s[i] + (h - i) * (s[i+1] - s[i])`, the upper neighbour clamped to the lower
one at the right edge. -/
def interp (s : List ℚ) (h : ℚ) : ℚ :=
  s.getD (interpIdx h) 0 +
    (h - (interpIdx h : ℚ)) *
      (s.getD (interpIdx h + 1) (s.getD (interpIdx h) 0) - s.getD (interpIdx h) 0)

/-- Line 115, `np.percentile(final_values, q)` with the default linear
interpolation: sort ascending, then interpolate at virtual index
`q / 100 * (n - 1)`. -/
def percentile (xs : List ℚ) (q : ℚ) : ℚ :=
  let s := xs.insertionSort (· ≤ ·)
  interp s (q / 100 * ((s.length : ℚ) - 1))

/-- Line 115: the five percentile levels used by the source. -/
def percentileSummary (xs : List ℚ) : List ℚ :=
  [10, 25, 50, 75, 90].map (percentile xs)

/-- Compounded growth factor of a return sequence: the product of `1 + r`. -/
def growth (rs : List ℚ) : ℚ := (rs.map fun r => 1 + r).prod

/-- The deterministic return sequence a trial consumes when both standard
deviations are zero: `bear_months` copies of the bear monthly mean followed
by `normal_months` copies of the normal monthly mean. -/
def detRets (cfg : Config) : List ℚ :=
  List.replicate cfg.bear_months cfg.bear_monthly_return
    ++ List.replicate cfg.normal_months cfg.monthly_return

/-- Value evolution of the non-contributing branch (line 105),
stripped of the contribution component. -/
def foldHold (v : ℚ) (rs : List ℚ) : ℚ :=
  rs.foldl (fun v r => v * (1 + r)) v

/-- Value evolution of the contributing branch (line 103),
stripped of the contribution component. -/
def foldContrib (c v : ℚ) (rs : List ℚ) : ℚ :=
  rs.foldl (fun v r => (v + c) * (1 + r)) v

/-- The ordered list of return sequences the trial loop consumes, by trial
index, starting at stream position `pos`.  It does not depend on the
strategy; lemmas below show each strategy run consumes exactly this list. -/
def returnsList (cfg : Config) (z : ℕ → ℚ) : ℕ → ℕ → List (List ℚ)
  | 0, _ => []
  | k + 1, pos => trialReturns cfg z pos :: returnsList cfg z k (pos + cfg.drawsPerTrial)

/-- Transcribed from the spec's error-taxonomy sentence (§7), for the
validation claim only: the input invariants the spec says are checked before
any trial runs.  The source performs no such check; this predicate exists to
state that divergence. -/
def specConfigInvariants (cfg : Config) : Prop :=
  0 ≤ cfg.principal ∧ 0 ≤ cfg.monthly_dca ∧
    cfg.bear_months ≤ cfg.months ∧ 1 ≤ cfg.simulations ∧
    0 ≤ cfg.monthly_std ∧ 0 ≤ cfg.bear_monthly_std

/-- A configuration used at several concrete evaluation points below: the
spec's scenario `principal = 100000`, `current_return_pct = 50`, no
contribution, a 12-month horizon with no bear phase, zero volatility, one
trial. -/
def scenarioTP : Config :=
  { principal := 100000, current_return_pct := 50, monthly_dca := 0
    months := 12, bear_months := 0
    monthly_return := 0, monthly_std := 0
    bear_monthly_return := 0, bear_monthly_std := 0
    simulations := 1 }

/-- The all-zero stand-in for the seeded standard-normal stream, used when a
concrete evaluation does not depend on the draws. -/
def zZero : ℕ → ℚ := fun _ => 0

/-- A stream whose draw at position `n` is `n`, used to observe stream
positions in concrete evaluations. -/
def zPos : ℕ → ℚ := fun n => (n : ℚ)

/-- A configuration violating the spec's input invariants (negative monthly
contribution) on which the source nevertheless completes normally. -/
def cfgNegativeDca : Config :=
  { principal := 100000, current_return_pct := 0, monthly_dca := -1000
    months := 1, bear_months := 0
    monthly_return := 0, monthly_std := 0
    bear_monthly_return := 0, bear_monthly_std := 0
    simulations := 2 }

/-- A two-trial configuration with unit volatility, used to observe which
stream positions each trial consumes. -/
def cfgSeedObs : Config :=
  { principal := 100000, current_return_pct := 0, monthly_dca := 0
    months := 1, bear_months := 0
    monthly_return := 0, monthly_std := 1
    bear_monthly_return := 0, bear_monthly_std := 0
    simulations := 2 }

/-- Zero-volatility one-month comparison configuration with a positive
current return: exhibits the failing cross-strategy comparison. -/
def cfgUnfair : Config :=
  { principal := 100000, current_return_pct := 50, monthly_dca := 1000
    months := 1, bear_months := 0
    monthly_return := 0, monthly_std := 0
    bear_monthly_return := 0, bear_monthly_std := 0
    simulations := 1 }

/-- Zero-volatility one-month comparison configuration with zero current
return: the fair-comparison instance. -/
def cfgFair : Config :=
  { principal := 100000, current_return_pct := 0, monthly_dca := 1000
    months := 1, bear_months := 0
    monthly_return := 0, monthly_std := 0
    bear_monthly_return := 0, bear_monthly_std := 0
    simulations := 1 }

/-- A one-trial contributing configuration over two months. -/
def cfgDca : Config :=
  { principal := 100000, current_return_pct := 5, monthly_dca := 3000
    months := 2, bear_months := 0
    monthly_return := 0, monthly_std := 0
    bear_monthly_return := 0, bear_monthly_std := 0
    simulations := 1 }

/-! ## Basic structure lemmas -/

theorem runTrial_returns (cfg : Config) (s : Strategy) (rets : List ℚ) :
    (runTrial cfg s rets).returns = rets := rfl

theorem startState_snd (cfg : Config) (s : Strategy) :
    (startState cfg s).2 = cfg.principal := by
  cases h : isTakeProfit s <;> simp [startState, h, Config.cost_basis]

theorem length_trialReturns (cfg : Config) (z : ℕ → ℚ) (pos : ℕ) :
    (trialReturns cfg z pos).length = cfg.drawsPerTrial := by
  simp [trialReturns, drawNormal, Config.drawsPerTrial]

theorem time_series_length (cfg : Config) (s : Strategy) (rets : List ℚ) :
    (runTrial cfg s rets).time_series.length = rets.length + 1 := by
  simp [runTrial, List.length_scanl]

theorem contrib_series_length (cfg : Config) (s : Strategy) (rets : List ℚ) :
    (runTrial cfg s rets).contrib_series.length = rets.length + 1 := by
  simp [runTrial, List.length_scanl]

theorem length_runTrialsFrom (cfg : Config) (s : Strategy) (z : ℕ → ℚ)
    (k pos : ℕ) : (runTrialsFrom cfg s z k pos).length = k := by
  induction k generalizing pos with
  | zero => rfl
  | succ k ih => simp [runTrialsFrom, ih]

theorem runTrialsFrom_getElem? (cfg : Config) (s : Strategy) (z : ℕ → ℚ)
    (k pos i : ℕ) :
    (runTrialsFrom cfg s z k pos)[i]? =
      if i < k then
        some (runTrial cfg s (trialReturns cfg z (pos + i * cfg.drawsPerTrial)))
      else none := by
  induction k generalizing pos i with
  | zero => simp [runTrialsFrom]
  | succ k ih =>
    cases i with
    | zero => simp [runTrialsFrom]
    | succ i =>
      have harith : pos + cfg.drawsPerTrial + i * cfg.drawsPerTrial =
          pos + (i + 1) * cfg.drawsPerTrial := by ring
      simp [runTrialsFrom, ih, harith, Nat.succ_lt_succ_iff]

theorem mem_runTrialsFrom (cfg : Config) (s : Strategy) (z : ℕ → ℚ) :
    ∀ {k pos : ℕ} {t : Trial}, t ∈ runTrialsFrom cfg s z k pos →
      ∃ q, t = runTrial cfg s (trialReturns cfg z q) := by
  intro k
  induction k with
  | zero => intro pos t ht; simp [runTrialsFrom] at ht
  | succ k ih =>
    intro pos t ht
    rcases List.mem_cons.mp ht with h | h
    · exact ⟨pos, h⟩
    · exact ih h

theorem map_returns_runTrialsFrom (cfg : Config) (s : Strategy) (z : ℕ → ℚ)
    (k pos : ℕ) :
    (runTrialsFrom cfg s z k pos).map Trial.returns = returnsList cfg z k pos := by
  induction k generalizing pos with
  | zero => rfl
  | succ k ih => simp [runTrialsFrom, returnsList, runTrial_returns, ih]

/-! ## The recorded series, month by month -/

theorem contrib_series_eq (cfg : Config) (s : Strategy) (rets : List ℚ) :
    (runTrial cfg s rets).contrib_series =
      (rets.scanl (monthStep s cfg.monthly_dca) (startState cfg s)).map Prod.snd := by
  have hsnd := startState_snd cfg s
  cases rets with
  | nil => simp [runTrial, List.scanl_nil, hsnd]
  | cons r rs => simp [runTrial, List.scanl_cons, hsnd]

theorem contrib_scanl_getD (s : Strategy) (hc : isContributing s = true)
    (dca : ℚ) (rets : List ℚ) :
    ∀ (st : ℚ × ℚ) (m : ℕ), m ≤ rets.length →
      ((rets.scanl (monthStep s dca) st).map Prod.snd).getD m 0 =
        st.2 + m * dca := by
  induction rets with
  | nil =>
    intro st m hm
    have : m = 0 := Nat.le_zero.mp hm
    simp [this, List.scanl_nil]
  | cons r rs ih =>
    intro st m hm
    cases m with
    | zero => simp [List.scanl_cons]
    | succ m =>
      have hm' : m ≤ rs.length := by simpa using hm
      rw [List.scanl_cons, List.singleton_append, List.map_cons,
        List.getD_cons_succ, ih (monthStep s dca st r) m hm']
      simp only [monthStep, hc, if_pos]
      push_cast
      ring

theorem hold_scanl_getD (s : Strategy) (hc : isContributing s = false)
    (dca : ℚ) (rets : List ℚ) :
    ∀ (st : ℚ × ℚ) (m : ℕ), m ≤ rets.length →
      ((rets.scanl (monthStep s dca) st).map Prod.fst).getD m 0 =
        st.1 * growth (rets.take m) := by
  induction rets with
  | nil =>
    intro st m hm
    have : m = 0 := Nat.le_zero.mp hm
    simp [this, List.scanl_nil, growth]
  | cons r rs ih =>
    intro st m hm
    cases m with
    | zero => simp [List.scanl_cons, growth]
    | succ m =>
      have hm' : m ≤ rs.length := by simpa using hm
      rw [List.scanl_cons, List.singleton_append, List.map_cons,
        List.getD_cons_succ, ih (monthStep s dca st r) m hm']
      simp only [monthStep, hc, Bool.false_eq_true, if_false, List.take_succ_cons,
        growth, List.map_cons, List.prod_cons]
      ring

theorem contrib_foldl_fst (s : Strategy) (hc : isContributing s = true)
    (dca : ℚ) (rets : List ℚ) :
    ∀ st : ℚ × ℚ, (rets.foldl (monthStep s dca) st).1 =
      foldContrib dca st.1 rets := by
  induction rets with
  | nil => intro st; rfl
  | cons r rs ih =>
    intro st
    simp only [List.foldl_cons, foldContrib] at ih ⊢
    rw [ih (monthStep s dca st r)]
    simp [monthStep, hc]

theorem hold_foldl_fst (s : Strategy) (hc : isContributing s = false)
    (dca : ℚ) (rets : List ℚ) :
    ∀ st : ℚ × ℚ, (rets.foldl (monthStep s dca) st).1 =
      foldHold st.1 rets := by
  induction rets with
  | nil => intro st; rfl
  | cons r rs ih =>
    intro st
    simp only [List.foldl_cons, foldHold] at ih ⊢
    rw [ih (monthStep s dca st r)]
    simp [monthStep, hc]

theorem foldHold_eq_growth (v : ℚ) (rets : List ℚ) :
    foldHold v rets = v * growth rets := by
  induction rets generalizing v with
  | nil => simp [foldHold, growth]
  | cons r rs ih =>
    simp only [foldHold, List.foldl_cons, growth, List.map_cons, List.prod_cons] at ih ⊢
    rw [ih]
    ring

theorem time_series_getD_zero (cfg : Config) (s : Strategy) (rets : List ℚ) :
    (runTrial cfg s rets).time_series.getD 0 0 = cfg.initial_value := by
  simp [runTrial]

theorem time_series_getD_succ (cfg : Config) (s : Strategy) (rets : List ℚ)
    (m : ℕ) :
    (runTrial cfg s rets).time_series.getD (m + 1) 0 =
      ((rets.scanl (monthStep s cfg.monthly_dca) (startState cfg s)).map
        Prod.fst).getD (m + 1) 0 := by
  cases rets with
  | nil => simp [runTrial, List.scanl_nil]
  | cons r rs => simp [runTrial, List.scanl_cons]

theorem final_value_hold (cfg : Config) (s : Strategy)
    (hc : isContributing s = false) (rets : List ℚ) :
    (runTrial cfg s rets).final_value = (startState cfg s).1 * growth rets := by
  simp only [runTrial]
  rw [hold_foldl_fst s hc, foldHold_eq_growth]

theorem final_value_contrib (cfg : Config) (s : Strategy)
    (hc : isContributing s = true) (rets : List ℚ) :
    (runTrial cfg s rets).final_value =
      foldContrib cfg.monthly_dca (startState cfg s).1 rets := by
  simp only [runTrial]
  rw [contrib_foldl_fst s hc]

/-! ## Zero-volatility runs and the effect of contributing -/

theorem foldHold_nil (v : ℚ) : foldHold v [] = v := rfl

theorem foldHold_cons (v r : ℚ) (rs : List ℚ) :
    foldHold v (r :: rs) = foldHold (v * (1 + r)) rs := rfl

theorem foldContrib_nil (c v : ℚ) : foldContrib c v [] = v := rfl

theorem foldContrib_cons (c v r : ℚ) (rs : List ℚ) :
    foldContrib c v (r :: rs) = foldContrib c ((v + c) * (1 + r)) rs := rfl

theorem drawNormal_sigma_zero (z : ℕ → ℚ) (pos : ℕ) (mu : ℚ) (n : ℕ) :
    drawNormal z pos mu 0 n = List.replicate n mu := by
  simp [drawNormal, List.map_const']

theorem trialReturns_sigma_zero (cfg : Config) (z : ℕ → ℚ)
    (hσn : cfg.monthly_std = 0) (hσb : cfg.bear_monthly_std = 0) (pos : ℕ) :
    trialReturns cfg z pos = detRets cfg := by
  rw [trialReturns, hσn, hσb, drawNormal_sigma_zero, drawNormal_sigma_zero, detRets]

theorem mem_detRets_nonneg (cfg : Config) (hμn : 0 ≤ cfg.monthly_return)
    (hμb : 0 ≤ cfg.bear_monthly_return) : ∀ r ∈ detRets cfg, 0 ≤ r := by
  intro r hr
  rcases List.mem_append.mp hr with h | h <;>
    rw [List.eq_of_mem_replicate h] <;> assumption

theorem detRets_length (cfg : Config) :
    (detRets cfg).length = cfg.drawsPerTrial := by
  simp [detRets, Config.drawsPerTrial]

theorem foldHold_add_le (rs : List ℚ) (hr : ∀ r ∈ rs, 0 ≤ r) :
    ∀ x d : ℚ, 0 ≤ d → foldHold x rs + d ≤ foldHold (x + d) rs := by
  induction rs with
  | nil => intro x d _; simp [foldHold_nil]
  | cons r rs ih =>
    intro x d hd
    have hr0 : 0 ≤ r := hr r (List.mem_cons_self r rs)
    have hr' : ∀ r' ∈ rs, 0 ≤ r' := fun r' h => hr r' (List.mem_cons_of_mem _ h)
    rw [foldHold_cons, foldHold_cons]
    have hd' : 0 ≤ d * (1 + r) := mul_nonneg hd (by linarith)
    have h1 := ih hr' (x * (1 + r)) (d * (1 + r)) hd'
    have h2 : (x + d) * (1 + r) = x * (1 + r) + d * (1 + r) := by ring
    have h3 : d ≤ d * (1 + r) := by nlinarith
    rw [h2]
    linarith

theorem foldContrib_ge (rs : List ℚ) (hr : ∀ r ∈ rs, 0 ≤ r) (c : ℚ)
    (hc : 0 ≤ c) : ∀ v : ℚ,
      foldHold v rs + c * rs.length ≤ foldContrib c v rs := by
  induction rs with
  | nil => intro v; simp [foldHold_nil, foldContrib_nil]
  | cons r rs ih =>
    intro v
    have hr0 : 0 ≤ r := hr r (List.mem_cons_self r rs)
    have hr' : ∀ r' ∈ rs, 0 ≤ r' := fun r' h => hr r' (List.mem_cons_of_mem _ h)
    rw [foldHold_cons, foldContrib_cons]
    have h1 := ih hr' ((v + c) * (1 + r))
    have h2 := foldHold_add_le rs hr' (v * (1 + r)) (c * (1 + r))
      (mul_nonneg hc (by linarith))
    have h3 : (v + c) * (1 + r) = v * (1 + r) + c * (1 + r) := by ring
    have h4 : c ≤ c * (1 + r) := by nlinarith
    have h5 : (((r :: rs).length : ℚ)) = (rs.length : ℚ) + 1 := by
      push_cast [List.length_cons]
      ring
    rw [h3] at h1
    rw [h5, h3]
    linarith [h1, h2, h4]

theorem foldContrib_gt (rs : List ℚ) (hne : rs ≠ [])
    (hr : ∀ r ∈ rs, 0 ≤ r) (c : ℚ) (hc : 0 < c) (v : ℚ) :
    foldHold v rs < foldContrib c v rs := by
  have hlen : 1 ≤ rs.length := List.length_pos.mpr hne
  have h1 := foldContrib_ge rs hr c hc.le v
  have h2 : (1 : ℚ) ≤ (rs.length : ℚ) := by exact_mod_cast hlen
  nlinarith

/-! ## Percentile interpolation -/

theorem interpIdx_cast (h : ℚ) (h0 : 0 ≤ h) :
    ((interpIdx h : ℚ)) = ((⌊h⌋ : ℤ) : ℚ) := by
  have := Int.toNat_of_nonneg (Int.floor_nonneg.mpr h0)
  rw [interpIdx]
  exact_mod_cast congrArg (fun z : ℤ => (z : ℚ)) this

theorem interpIdx_le (h : ℚ) (h0 : 0 ≤ h) : (interpIdx h : ℚ) ≤ h := by
  rw [interpIdx_cast h h0]
  exact Int.floor_le h

theorem lt_interpIdx_add_one (h : ℚ) (h0 : 0 ≤ h) :
    h < (interpIdx h : ℚ) + 1 := by
  rw [interpIdx_cast h h0]
  exact Int.lt_floor_add_one h

theorem interpIdx_mono {h₁ h₂ : ℚ} (hle : h₁ ≤ h₂) :
    interpIdx h₁ ≤ interpIdx h₂ :=
  Int.toNat_le_toNat (Int.floor_mono hle)

theorem interpIdx_le_of_le {n : ℕ} {h : ℚ} (hn : h ≤ (n : ℚ)) :
    interpIdx h ≤ n := by
  have h1 : ⌊h⌋ ≤ (n : ℤ) := by
    have h2 := Int.floor_mono hn
    rwa [Int.floor_natCast] at h2
  have h3 := Int.toNat_le_toNat h1
  simpa [interpIdx] using h3

theorem sorted_getD_le (s : List ℚ) (hs : s.Sorted (· ≤ ·)) {a b : ℕ}
    (hab : a ≤ b) (hb : b < s.length) : s.getD a 0 ≤ s.getD b 0 := by
  have ha : a < s.length := lt_of_le_of_lt hab hb
  rw [List.getD_eq_getElem s 0 ha, List.getD_eq_getElem s 0 hb,
    ← List.get_eq_getElem s ⟨a, ha⟩, ← List.get_eq_getElem s ⟨b, hb⟩]
  exact List.Sorted.rel_get_of_le hs hab

theorem getD_default_eq (s : List ℚ) {i : ℕ} (hi : i < s.length) (d : ℚ) :
    s.getD i d = s.getD i 0 := by
  rw [List.getD_eq_getElem s d hi, List.getD_eq_getElem s 0 hi]

theorem getD_le_getD_succ (s : List ℚ) (hs : s.Sorted (· ≤ ·)) {i : ℕ}
    (hi : i < s.length) :
    s.getD i 0 ≤ s.getD (i + 1) (s.getD i 0) := by
  by_cases h : i + 1 < s.length
  · rw [getD_default_eq s h]
    exact sorted_getD_le s hs (Nat.le_succ i) h
  · rw [List.getD_eq_default s (s.getD i 0) (show s.length ≤ i + 1 by omega)]

theorem interp_mono (s : List ℚ) (hs : s.Sorted (· ≤ ·)) (hne : s ≠ [])
    {h₁ h₂ : ℚ} (h0 : 0 ≤ h₁) (h12 : h₁ ≤ h₂)
    (htop : h₂ ≤ (s.length : ℚ) - 1) :
    interp s h₁ ≤ interp s h₂ := by
  have hlen1 : 1 ≤ s.length := List.length_pos.mpr hne
  have h0' : 0 ≤ h₂ := h0.trans h12
  have hi12 : interpIdx h₁ ≤ interpIdx h₂ := interpIdx_mono h12
  have hcast : ((s.length - 1 : ℕ) : ℚ) = (s.length : ℚ) - 1 := by
    rw [Nat.cast_sub hlen1, Nat.cast_one]
  have hi₂top : interpIdx h₂ ≤ s.length - 1 :=
    interpIdx_le_of_le (by rw [hcast]; exact htop)
  have hi₂lt : interpIdx h₂ < s.length := by omega
  have hi₁lt : interpIdx h₁ < s.length := lt_of_le_of_lt hi12 hi₂lt
  have ha₁ := getD_le_getD_succ s hs hi₁lt
  have ha₂ := getD_le_getD_succ s hs hi₂lt
  have hb₁l : ((interpIdx h₁ : ℚ)) ≤ h₁ := interpIdx_le h₁ h0
  have hb₁u : h₁ < (interpIdx h₁ : ℚ) + 1 := lt_interpIdx_add_one h₁ h0
  have hb₂l : ((interpIdx h₂ : ℚ)) ≤ h₂ := interpIdx_le h₂ h0'
  rcases Nat.lt_or_ge (interpIdx h₁) (interpIdx h₂) with hlt | hge
  · have hi₁1le : interpIdx h₁ + 1 ≤ interpIdx h₂ := hlt
    have hin : interpIdx h₁ + 1 < s.length := lt_of_le_of_lt hi₁1le hi₂lt
    have hstep : s.getD (interpIdx h₁ + 1) 0 ≤ s.getD (interpIdx h₂) 0 :=
      sorted_getD_le s hs hi₁1le hi₂lt
    have h1u : interp s h₁ ≤ s.getD (interpIdx h₁ + 1) 0 := by
      rw [interp, getD_default_eq s hin]
      have hd : 0 ≤ s.getD (interpIdx h₁ + 1) 0 - s.getD (interpIdx h₁) 0 := by
        have := sorted_getD_le s hs (Nat.le_succ (interpIdx h₁)) hin
        linarith
      have ht1 : h₁ - ((interpIdx h₁ : ℚ)) ≤ 1 := by linarith
      nlinarith [mul_nonneg (by linarith : (0:ℚ) ≤ 1 - (h₁ - ((interpIdx h₁ : ℚ)))) hd]
    have h2l : s.getD (interpIdx h₂) 0 ≤ interp s h₂ := by
      rw [interp]
      have ht2 : 0 ≤ h₂ - ((interpIdx h₂ : ℚ)) := by linarith
      have hd₂ : 0 ≤ s.getD (interpIdx h₂ + 1) (s.getD (interpIdx h₂) 0) -
          s.getD (interpIdx h₂) 0 := by linarith
      linarith [mul_nonneg ht2 hd₂]
    linarith
  · have heq : interpIdx h₁ = interpIdx h₂ := le_antisymm hi12 hge
    rw [interp, interp, ← heq]
    have hd : 0 ≤ s.getD (interpIdx h₁ + 1) (s.getD (interpIdx h₁) 0) -
        s.getD (interpIdx h₁) 0 := by linarith
    have hmul := mul_le_mul_of_nonneg_right
      (sub_le_sub_right h12 ((interpIdx h₁ : ℚ))) hd
    linarith

theorem percentile_mono (xs : List ℚ) (hne : xs ≠ []) {q₁ q₂ : ℚ}
    (h0 : 0 ≤ q₁) (h12 : q₁ ≤ q₂) (h100 : q₂ ≤ 100) :
    percentile xs q₁ ≤ percentile xs q₂ := by
  simp only [percentile]
  have hlen : (xs.insertionSort (· ≤ ·)).length = xs.length :=
    List.length_insertionSort _ xs
  have hsne : xs.insertionSort (· ≤ ·) ≠ [] := by
    intro h
    rw [h] at hlen
    exact hne (List.length_eq_zero.mp hlen.symm)
  have hs := List.sorted_insertionSort (· ≤ ·) xs
  have hlen1 : 1 ≤ (xs.insertionSort (· ≤ ·)).length := List.length_pos.mpr hsne
  have hn1 : (0:ℚ) ≤ ((xs.insertionSort (· ≤ ·)).length : ℚ) - 1 := by
    have : (1:ℚ) ≤ ((xs.insertionSort (· ≤ ·)).length : ℚ) := by
      exact_mod_cast hlen1
    linarith
  apply interp_mono _ hs hsne
  · exact mul_nonneg (div_nonneg h0 (by norm_num)) hn1
  · exact mul_le_mul_of_nonneg_right
      ((div_le_div_iff_of_pos_right (by norm_num : (0:ℚ) < 100)).mpr h12) hn1
  · have hq : q₂ / 100 ≤ 1 := (div_le_one (by norm_num : (0:ℚ) < 100)).mpr h100
    nlinarith [mul_nonneg (by linarith : (0:ℚ) ≤ 1 - q₂ / 100) hn1]

/-! ## The claims -/

/-- C1: the spec says that for the take-profit strategies the month-0 entry
of every trial's recorded time series equals `cost_basis`; the source appends
`initial_value` to `time_series` (line 89) before the take-profit reset of
lines 92-94, so on the spec's own scenario (`principal = 100000`,
`current_return_pct = 50`) the recorded month-0 value is 150000, the initial
value, and not the 100000 cost basis from which the trial actually evolves. -/
theorem c1_month0_records_initial_value :
    ((timeSeriesExamples scenarioTP Strategy.takeProfitKeepPrincipalOnly
        zZero).getD 0 []).getD 0 0 = 150000 ∧
      scenarioTP.cost_basis = 100000 ∧
      scenarioTP.initial_value = 150000 := by
  refine ⟨?_, by norm_num [scenarioTP, Config.cost_basis],
    by norm_num [scenarioTP, Config.initial_value]⟩
  have h1 : timeSeriesExamples scenarioTP Strategy.takeProfitKeepPrincipalOnly zZero =
      [(runTrial scenarioTP Strategy.takeProfitKeepPrincipalOnly
        (trialReturns scenarioTP zZero 0)).time_series] := rfl
  rw [h1, List.getD_cons_zero, time_series_getD_zero]
  norm_num [scenarioTP, Config.initial_value]

/-- C2: for every configuration with `bear_months ≤ months`, the list of
final values has exactly `simulations` entries, and every trial's recorded
time series — in particular every retained sample path — has exactly
`months + 1` observations. -/
theorem c2_result_shape (cfg : Config) (s : Strategy) (z : ℕ → ℚ)
    (hb : cfg.bear_months ≤ cfg.months) :
    (finalValues cfg s z).length = cfg.simulations ∧
      (∀ t ∈ runStrategy cfg s z, t.time_series.length = cfg.months + 1) ∧
      ∀ ts ∈ timeSeriesExamples cfg s z, ts.length = cfg.months + 1 := by
  have hall : ∀ t ∈ runStrategy cfg s z, t.time_series.length = cfg.months + 1 := by
    intro t ht
    obtain ⟨q, rfl⟩ := mem_runTrialsFrom cfg s z ht
    rw [time_series_length, length_trialReturns]
    simp only [Config.drawsPerTrial, Config.normal_months]
    omega
  refine ⟨?_, hall, ?_⟩
  · simp [finalValues, runStrategy, length_runTrialsFrom]
  · intro ts hts
    have hts' : ts ∈ (runStrategy cfg s z).map Trial.time_series :=
      List.take_subset _ _ hts
    obtain ⟨t, ht, rfl⟩ := List.mem_map.mp hts'
    exact hall t ht

/-- Witness for C2 at the spec's scenario configuration. -/
theorem c2_result_shape_witness :
    (finalValues scenarioTP Strategy.stopContributingHoldExisting
        zZero).length = scenarioTP.simulations ∧
      (∀ t ∈ runStrategy scenarioTP Strategy.stopContributingHoldExisting zZero,
        t.time_series.length = scenarioTP.months + 1) ∧
      ∀ ts ∈ timeSeriesExamples scenarioTP Strategy.stopContributingHoldExisting
          zZero, ts.length = scenarioTP.months + 1 :=
  c2_result_shape scenarioTP Strategy.stopContributingHoldExisting zZero
    (by decide)

/-- C3, counterexample: the claim says a configuration violating the stated
invariants causes an error before any trial runs and no result is returned.
The source contains no validation at all: on a configuration with a negative
monthly contribution (violating `specConfigInvariants`) the trial loop runs
to completion and a full result — one final value per requested trial — is
produced. -/
theorem c3_counterexample :
    ¬ specConfigInvariants cfgNegativeDca ∧
      (finalValues cfgNegativeDca Strategy.continueHoldingAndContributing
        zZero).length = cfgNegativeDca.simulations := by
  constructor
  · intro h
    have := h.2.1
    norm_num [cfgNegativeDca] at this
  · simp [finalValues, runStrategy, length_runTrialsFrom]

/-- C3, amended: the source validates nothing; even with a negative monthly
contribution the trial loop runs `simulations` trials and returns a complete
list of final values. -/
theorem c3_no_validation (cfg : Config) (s : Strategy) (z : ℕ → ℚ)
    (_hneg : cfg.monthly_dca < 0) :
    (finalValues cfg s z).length = cfg.simulations := by
  simp [finalValues, runStrategy, length_runTrialsFrom]

/-- Witness for the amended C3. -/
theorem c3_no_validation_witness :
    (finalValues cfgNegativeDca Strategy.continueHoldingAndContributing
      zZero).length = cfgNegativeDca.simulations :=
  c3_no_validation cfgNegativeDca Strategy.continueHoldingAndContributing zZero
    (by norm_num [cfgNegativeDca])

/-- C4: `np.random.seed(42)` runs before the trials of a strategy, so the
final values of an invocation do not depend on the incoming global generator
state: two separate invocations with the same configuration (and hence the
same seeded stream) produce identical `final_values`, whatever state each
invocation's process was in beforehand. -/
theorem c4_fixed_seed_determinism (cfg : Config) (s : Strategy)
    (z42 : ℕ → ℚ) (st₁ st₂ : RngState) :
    (runStrategyFrom cfg s z42 st₁).map Trial.final_value =
      (runStrategyFrom cfg s z42 st₂).map Trial.final_value := rfl

/-- C5: the seed is reset at the top of each strategy iteration
(line 81 sits inside the strategy loop), so whatever generator state each
strategy's simulation starts from — in the comparison loop a later strategy
starts wherever the previous one left the stream — any two strategies
consume, at every trial index, exactly the same return sequences. -/
theorem c5_identical_draws_across_strategies (cfg : Config) (z42 : ℕ → ℚ)
    (sA sB : Strategy) (stA stB : RngState) :
    (runStrategyFrom cfg sA z42 stA).map Trial.returns =
      (runStrategyFrom cfg sB z42 stB).map Trial.returns := by
  rw [runStrategyFrom, runStrategyFrom, map_returns_runTrialsFrom,
    map_returns_runTrialsFrom]
  rfl

/-- C6, counterexample: the claim says the generator is reseeded identically
before every trial of a run, which would make every trial consume identical
draws.  With two trials, unit volatility and the stream `zPos` the first
trial's return sequence is `[0]` and the second's is `[1]`: consecutive
trials consume different slices of one stream. -/
theorem c6_counterexample :
    ((runStrategy cfgSeedObs Strategy.continueHoldingAndContributing
        zPos).map Trial.returns).getD 0 [] ≠
      ((runStrategy cfgSeedObs Strategy.continueHoldingAndContributing
        zPos).map Trial.returns).getD 1 [] := by
  have h : runStrategy cfgSeedObs Strategy.continueHoldingAndContributing zPos =
      [runTrial cfgSeedObs Strategy.continueHoldingAndContributing
          (trialReturns cfgSeedObs zPos 0),
        runTrial cfgSeedObs Strategy.continueHoldingAndContributing
          (trialReturns cfgSeedObs zPos cfgSeedObs.drawsPerTrial)] := rfl
  rw [h]
  norm_num [runTrial_returns, trialReturns, drawNormal, zPos, cfgSeedObs,
    Config.normal_months, Config.drawsPerTrial, List.range_succ]

/-- C6, amended: within one strategy run the generator is seeded exactly once,
before the trial loop; trial `i` then consumes the slice of the stream that
starts at position `i * drawsPerTrial`. -/
theorem c6_reseed_once_per_strategy (cfg : Config) (s : Strategy)
    (z : ℕ → ℚ) (i : ℕ) :
    (runStrategy cfg s z)[i]? =
      if i < cfg.simulations then
        some (runTrial cfg s (trialReturns cfg z (i * cfg.drawsPerTrial)))
      else none := by
  simpa using runTrialsFrom_getElem? cfg s z cfg.simulations 0 i

/-- C7: for the contributing strategies, the recorded cumulative contribution
at month `m` of every trial equals the initial contribution (`principal`,
which also equals `cost_basis`) plus `m` times the monthly contribution. -/
theorem c7_contribution_linear (cfg : Config) (s : Strategy) (z : ℕ → ℚ)
    (hc : isContributing s = true) (hb : cfg.bear_months ≤ cfg.months) :
    ∀ t ∈ runStrategy cfg s z, ∀ m ≤ cfg.months,
      t.contrib_series.getD m 0 = cfg.principal + m * cfg.monthly_dca := by
  intro t ht m hm
  obtain ⟨q, rfl⟩ := mem_runTrialsFrom cfg s z ht
  have hlen : (trialReturns cfg z q).length = cfg.months := by
    rw [length_trialReturns]
    simp only [Config.drawsPerTrial, Config.normal_months]
    omega
  rw [contrib_series_eq,
    contrib_scanl_getD s hc cfg.monthly_dca _ _ m (by omega),
    startState_snd]

/-- Witness for C7: the two-month contributing configuration, at month 2. -/
theorem c7_contribution_linear_witness :
    (runTrial cfgDca Strategy.continueHoldingAndContributing
        (trialReturns cfgDca zZero 0)).contrib_series.getD 2 0 =
      cfgDca.principal + 2 * cfgDca.monthly_dca :=
  c7_contribution_linear cfgDca Strategy.continueHoldingAndContributing zZero
    rfl (by decide)
    (runTrial cfgDca Strategy.continueHoldingAndContributing
      (trialReturns cfgDca zZero 0))
    (List.Mem.head _) 2 (by decide)

/-- C8: for any non-empty result set, the percentile values computed at the
ordered levels 10, 25, 50, 75, 90 are non-decreasing. -/
theorem c8_percentiles_monotone (xs : List ℚ) (hne : xs ≠ []) :
    percentile xs 10 ≤ percentile xs 25 ∧
      percentile xs 25 ≤ percentile xs 50 ∧
      percentile xs 50 ≤ percentile xs 75 ∧
      percentile xs 75 ≤ percentile xs 90 :=
  ⟨percentile_mono xs hne (by norm_num) (by norm_num) (by norm_num),
    percentile_mono xs hne (by norm_num) (by norm_num) (by norm_num),
    percentile_mono xs hne (by norm_num) (by norm_num) (by norm_num),
    percentile_mono xs hne (by norm_num) (by norm_num) (by norm_num)⟩

/-- Witness for C8 on a concrete unsorted result set. -/
theorem c8_percentiles_monotone_witness :
    percentile [3, 1, 2, 5, 4] 10 ≤ percentile [3, 1, 2, 5, 4] 25 ∧
      percentile [3, 1, 2, 5, 4] 25 ≤ percentile [3, 1, 2, 5, 4] 50 ∧
      percentile [3, 1, 2, 5, 4] 50 ≤ percentile [3, 1, 2, 5, 4] 75 ∧
      percentile [3, 1, 2, 5, 4] 75 ≤ percentile [3, 1, 2, 5, 4] 90 :=
  c8_percentiles_monotone [3, 1, 2, 5, 4] (by decide)

/-- C9, counterexample: on `cfgUnfair` — zero volatility in both regimes,
positive monthly contribution, non-negative means, but a positive current
return — the contributing strategy "Take Profit and Keep Contributing"
finishes at 101000 while the non-contributing strategy
"Stop Contributing, Hold Existing" finishes at 150000: a contributing
strategy does NOT beat every non-contributing one. -/
theorem c9_counterexample :
    cfgUnfair.monthly_std = 0 ∧ cfgUnfair.bear_monthly_std = 0 ∧
      0 < cfgUnfair.monthly_dca ∧ 0 ≤ cfgUnfair.monthly_return ∧
      0 ≤ cfgUnfair.bear_monthly_return ∧
      (finalValues cfgUnfair Strategy.takeProfitAndKeepContributing
          zZero).getD 0 0 <
        (finalValues cfgUnfair Strategy.stopContributingHoldExisting
          zZero).getD 0 0 := by
  refine ⟨rfl, rfl, by norm_num [cfgUnfair], by norm_num [cfgUnfair],
    by norm_num [cfgUnfair], ?_⟩
  norm_num [finalValues, runStrategy, runTrialsFrom, runTrial, trialReturns,
    drawNormal, monthStep, startState, Config.initial_value, Config.cost_basis,
    Config.normal_months, Config.drawsPerTrial, isContributing, isTakeProfit,
    List.range_succ, zZero, cfgUnfair]

/-- C9, amended: with zero volatility in both regimes, non-negative monthly
means, a positive monthly contribution, at least one simulated month and —
the amendment — zero current return (so that `initial_value = cost_basis`
and all four strategies start from the same value), every trial's final value
under a contributing strategy strictly exceeds every trial's final value
under a non-contributing strategy. -/
theorem c9_contributing_beats_noncontributing (cfg : Config)
    (sC sN : Strategy) (z : ℕ → ℚ)
    (hC : isContributing sC = true) (hN : isContributing sN = false)
    (hσn : cfg.monthly_std = 0) (hσb : cfg.bear_monthly_std = 0)
    (hμn : 0 ≤ cfg.monthly_return) (hμb : 0 ≤ cfg.bear_monthly_return)
    (hdca : 0 < cfg.monthly_dca) (hcur : cfg.current_return_pct = 0)
    (hm : 1 ≤ cfg.months) (hb : cfg.bear_months ≤ cfg.months) :
    ∀ vC ∈ finalValues cfg sC z, ∀ vN ∈ finalValues cfg sN z, vN < vC := by
  have hstart : ∀ s : Strategy, (startState cfg s).1 = cfg.principal := by
    intro s
    cases h : isTakeProfit s <;>
      simp [startState, h, Config.cost_basis, Config.initial_value, hcur]
  have hlen : (detRets cfg).length = cfg.months := by
    rw [detRets_length]
    simp only [Config.drawsPerTrial, Config.normal_months]
    omega
  have hne : detRets cfg ≠ [] := by
    apply List.length_pos.mp
    omega
  intro vC hvC vN hvN
  obtain ⟨tC, htC, rfl⟩ := List.mem_map.mp hvC
  obtain ⟨qC, rfl⟩ := mem_runTrialsFrom cfg sC z htC
  obtain ⟨tN, htN, rfl⟩ := List.mem_map.mp hvN
  obtain ⟨qN, rfl⟩ := mem_runTrialsFrom cfg sN z htN
  rw [trialReturns_sigma_zero cfg z hσn hσb,
    trialReturns_sigma_zero cfg z hσn hσb,
    final_value_contrib cfg sC hC, final_value_hold cfg sN hN,
    hstart, hstart, ← foldHold_eq_growth]
  exact foldContrib_gt (detRets cfg) hne (mem_detRets_nonneg cfg hμn hμb)
    cfg.monthly_dca hdca cfg.principal

/-- Witness for the amended C9: on `cfgFair` the contributing take-profit
strategy finishes strictly above the non-contributing hold strategy. -/
theorem c9_contributing_beats_noncontributing_witness :
    (runTrial cfgFair Strategy.stopContributingHoldExisting
        (trialReturns cfgFair zZero 0)).final_value <
      (runTrial cfgFair Strategy.takeProfitAndKeepContributing
        (trialReturns cfgFair zZero 0)).final_value :=
  c9_contributing_beats_noncontributing cfgFair
    Strategy.takeProfitAndKeepContributing
    Strategy.stopContributingHoldExisting zZero rfl rfl rfl rfl
    (by decide) (by decide) (by decide) rfl (by decide) (by decide)
    _ (List.Mem.head _) _ (List.Mem.head _)

/-- C10, counterexample: the claim includes month 0, where for
"Take Profit, Keep Principal Only" it asserts the recorded value equals the
starting value `cost_basis` times the empty partial product; the source
records `initial_value` at month 0 instead (150000 versus 100000 on the
spec's scenario). -/
theorem c10_counterexample :
    (runTrial scenarioTP Strategy.takeProfitKeepPrincipalOnly
        [0]).time_series.getD 0 0 ≠
      (startState scenarioTP Strategy.takeProfitKeepPrincipalOnly).1 *
        growth (List.take 0 [0]) := by
  rw [time_series_getD_zero]
  norm_num [scenarioTP, Config.initial_value, startState, isTakeProfit,
    Config.cost_basis, growth]

/-- C10, amended: for the non-contributing strategies the final value is the
starting value (`initial_value`, or `cost_basis` for the take-profit
variant) times the product of all `1 + r`, and for every month `m ≥ 1` the
recorded value is the starting value times the partial product of the first
`m` factors; at month 0 the recorded value is `initial_value` for both
variants (the take-profit reset is not reflected there — see C1). -/
theorem c10_multiplicative_evolution (cfg : Config) (s : Strategy)
    (hc : isContributing s = false) (rets : List ℚ) (m : ℕ)
    (h1 : 1 ≤ m) (hm : m ≤ rets.length) :
    (runTrial cfg s rets).final_value = (startState cfg s).1 * growth rets ∧
      (runTrial cfg s rets).time_series.getD m 0 =
        (startState cfg s).1 * growth (rets.take m) ∧
      (runTrial cfg s rets).time_series.getD 0 0 = cfg.initial_value := by
  refine ⟨final_value_hold cfg s hc rets, ?_, time_series_getD_zero cfg s rets⟩
  cases m with
  | zero => exact absurd h1 (by norm_num)
  | succ m =>
    rw [time_series_getD_succ, hold_scanl_getD s hc cfg.monthly_dca rets _ _ hm]

/-- Witness for the amended C10 on a one-month 50% return. -/
theorem c10_multiplicative_evolution_witness :
    (runTrial scenarioTP Strategy.takeProfitKeepPrincipalOnly
        [1/2]).final_value =
        (startState scenarioTP Strategy.takeProfitKeepPrincipalOnly).1 *
          growth [1/2] ∧
      (runTrial scenarioTP Strategy.takeProfitKeepPrincipalOnly
          [1/2]).time_series.getD 1 0 =
        (startState scenarioTP Strategy.takeProfitKeepPrincipalOnly).1 *
          growth (List.take 1 [1/2]) ∧
      (runTrial scenarioTP Strategy.takeProfitKeepPrincipalOnly
          [1/2]).time_series.getD 0 0 = scenarioTP.initial_value :=
  c10_multiplicative_evolution scenarioTP Strategy.takeProfitKeepPrincipalOnly
    rfl [1/2] 1 (by decide) (by decide)

end InvestSim
